import Mathlib

/-!
Verification of the claim commitment and verification engine of the
MetacatLedger/sdk-js repository: shallow embedding of the attestation
state check, the delegation permission decoder, the salted hash-tree
builder and verifier, and the positional compression encoding, together
with theorems settling the specified properties.
-/

set_option maxHeartbeats 4000000
set_option maxRecDepth 100000

/- ## Attestation state (src/src/attestation/Attestation.ts) -/

/-- The attestation value object from src/src/attestation/Attestation.ts:
fields claimHash, cTypeHash, owner, revoked, delegationId. -/
structure AttestationInfo where
  claimHash : String
  cTypeHash : String
  owner : String
  revoked : Bool
  delegationId : Option String
deriving DecidableEq, Repr

/-- The validity test from Attestation.verify (Attestation.ts lines 55-67):
`attestation !== undefined && attestation.owner === this.owner &&
!attestation.revoked`, applied to the result of the ledger query.
An absent attestation is the `none` case and yields `false`. -/
def attestationValid (queried : Option AttestationInfo) (expectedOwner : String) : Bool :=
  match queried with
  | some att => att.owner == expectedOwner && !att.revoked
  | none => false

/-- Attestation.verify with the ledger query injected as an oracle:
the method queries the ledger for claimHash and applies the validity test. -/
def attestationVerify (ledger : String → Option AttestationInfo) (claimHash : String)
    (expectedOwner : String) : Bool :=
  attestationValid (ledger claimHash) expectedOwner

/-- The Attestation constructor (Attestation.ts lines 35-45): owner is the
attester address, claimHash is request.hash, cTypeHash is request.claim.cType,
delegationId comes from the request, and revoked defaults to false. -/
structure OldClaimView where
  cType : String
  owner : String
deriving DecidableEq, Repr

structure OldRequestView where
  hash : String
  claim : OldClaimView
  delegationId : Option String
deriving DecidableEq, Repr

structure IdentityView where
  address : String
deriving DecidableEq, Repr

def attestationConstructor (requestForAttestation : OldRequestView) (attester : IdentityView)
    (revoked : Bool := false) : AttestationInfo :=
  { owner := attester.address
    claimHash := requestForAttestation.hash
    cTypeHash := requestForAttestation.claim.cType
    delegationId := requestForAttestation.delegationId
    revoked := revoked }

/- ## Delegation permission decoding (src/src/delegation/DelegationDecoder.ts) -/

/-- The permission flags; ATTEST = 0b01 and DELEGATE = 0b10 as stated by the
specification of the delegation permission bitset. -/
inductive Permission where
  | ATTEST
  | DELEGATE
deriving DecidableEq, Repr

def Permission.value : Permission → Nat
  | .ATTEST => 1
  | .DELEGATE => 2

/-- decodePermissions (DelegationDecoder.ts lines 62-71): each flag is tested
independently with bitwise AND and pushed in the order ATTEST, DELEGATE. -/
def decodePermissions (bitset : Nat) : List Permission :=
  (if bitset.land Permission.ATTEST.value != 0 then [Permission.ATTEST] else []) ++
    (if bitset.land Permission.DELEGATE.value != 0 then [Permission.DELEGATE] else [])

/- ## Signing primitives (spec section 4.1; Crypto implementation not under src/) -/

/-- Modelled from the spec: the public key derived from a secret key of the
asymmetric signature scheme consumed by the engine (the Crypto wrapper is not
under src/, only its tests are). Derivation is injective by construction. -/
inductive SigPublicKey where
  | ofSecret (sk : Nat)
deriving DecidableEq, Repr

/-- Modelled from the spec: a signature value is either the honest output of
sign over a message and secret key, or arbitrary raw bytes standing for any
malformed, forged or truncated signature. -/
inductive CSignature where
  | signed (message : List Nat) (sk : Nat)
  | raw (bytes : List Nat)
deriving DecidableEq, Repr

/-- Modelled from the spec: sign(message, secretKey) of the signature scheme. -/
def cryptoSign (message : List Nat) (sk : Nat) : CSignature :=
  .signed message sk

/-- Modelled from the spec: verify(message, signature, publicKey) returns a
boolean and never throws; it accepts exactly the honest signature of the same
message under the secret key matching the public key. -/
def cryptoVerify (message : List Nat) (signature : CSignature) (pubKey : SigPublicKey) : Bool :=
  match signature with
  | .signed m sk => m == message && (SigPublicKey.ofSecret sk == pubKey)
  | .raw _ => false

/- ## Claim theorems (first group) -/

/-- C4: Attestation.verify(claimHash) returns true if and only if the ledger
query for claimHash returns an attestation whose owner equals the expected
attester address and whose revoked flag is false; in every other case,
including the absence of an attestation, it returns false (the function is
total, so it never throws). -/
theorem attestation_verify_valid_iff (ledger : String → Option AttestationInfo)
    (claimHash expectedOwner : String) :
    (attestationVerify ledger claimHash expectedOwner = true ↔
      ∃ att, ledger claimHash = some att ∧ att.owner = expectedOwner ∧ att.revoked = false) ∧
    (ledger claimHash = none → attestationVerify ledger claimHash expectedOwner = false) := by
  constructor
  · constructor
    · intro h
      unfold attestationVerify attestationValid at h
      cases hq : ledger claimHash with
      | none => rw [hq] at h; simp at h
      | some att =>
        rw [hq] at h
        simp only [Bool.and_eq_true, beq_iff_eq, Bool.not_eq_true'] at h
        exact ⟨att, rfl, h.1, h.2⟩
    · rintro ⟨att, hq, hown, hrev⟩
      unfold attestationVerify attestationValid
      rw [hq]
      simp [hown, hrev]
  · intro hq
    unfold attestationVerify attestationValid
    rw [hq]

/-- C5: decodePermissions returns exactly the permissions whose independent
bit flag is set (ATTEST = 0b01, DELEGATE = 0b10, tested by bitwise AND), in
the stable order [ATTEST, DELEGATE]; over 0b00, 0b01, 0b10, 0b11 it returns
[], [ATTEST], [DELEGATE], [ATTEST, DELEGATE]. -/
theorem decode_permissions_spec (bitset : Nat) :
    decodePermissions bitset =
      [Permission.ATTEST, Permission.DELEGATE].filter
        (fun p => bitset.land p.value != 0) ∧
    (∀ p : Permission, p ∈ decodePermissions bitset ↔ bitset.land p.value ≠ 0) ∧
    decodePermissions 0 = [] ∧
    decodePermissions 1 = [Permission.ATTEST] ∧
    decodePermissions 2 = [Permission.DELEGATE] ∧
    decodePermissions 3 = [Permission.ATTEST, Permission.DELEGATE] := by
  refine ⟨?_, ?_, by decide, by decide, by decide, by decide⟩
  · unfold decodePermissions
    cases hb1 : bitset.land Permission.ATTEST.value != 0 <;>
      cases hb2 : bitset.land Permission.DELEGATE.value != 0 <;>
        simp [List.filter, hb1, hb2]
  · intro p
    unfold decodePermissions
    cases p <;>
      cases hb1 : bitset.land Permission.ATTEST.value != 0 <;>
        cases hb2 : bitset.land Permission.DELEGATE.value != 0 <;>
          simp_all [bne_iff_ne]

/-- C10: constructing an Attestation from a request and an attester identity
with the revoked argument omitted yields revoked = false, owner = the
attester's address, and claimHash, cTypeHash, delegationId copied from the
request; creation never produces an already-revoked attestation. -/
theorem attestation_constructor_defaults (request : OldRequestView) (attester : IdentityView) :
    (attestationConstructor request attester).revoked = false ∧
    (attestationConstructor request attester).owner = attester.address ∧
    (attestationConstructor request attester).claimHash = request.hash ∧
    (attestationConstructor request attester).cTypeHash = request.claim.cType ∧
    (attestationConstructor request attester).delegationId = request.delegationId := by
  exact ⟨rfl, rfl, rfl, rfl, rfl⟩

/-- C9: Crypto.verify is a total boolean predicate: it accepts the signature
produced by Crypto.sign over the same message with the matching secret key,
and rejects a mismatched public key, a mismatched message, and any raw
(malformed, forged or truncated) signature. -/
theorem crypto_verify_sound (message other : List Nat) (sk sk2 : Nat) (bytes : List Nat) :
    cryptoVerify message (cryptoSign message sk) (.ofSecret sk) = true ∧
    (sk2 ≠ sk → cryptoVerify message (cryptoSign message sk) (.ofSecret sk2) = false) ∧
    (other ≠ message → cryptoVerify other (cryptoSign message sk) (.ofSecret sk) = false) ∧
    cryptoVerify message (.raw bytes) (.ofSecret sk) = false := by
  refine ⟨?_, ?_, ?_, rfl⟩
  · simp [cryptoVerify, cryptoSign]
  · intro h
    simp only [cryptoVerify, cryptoSign, Bool.and_eq_false_iff, beq_iff_eq, beq_eq_false_iff_ne,
      SigPublicKey.ofSecret.injEq]
    right
    exact fun hc => h (SigPublicKey.ofSecret.inj hc).symm
  · intro h
    simp only [cryptoVerify, cryptoSign, Bool.and_eq_false_iff, beq_eq_false_iff_ne]
    left
    exact fun hc => h hc.symm

/-- Witness for C9 at concrete inputs. -/
theorem crypto_verify_sound_witness :
    cryptoVerify [1, 2] (cryptoSign [1, 2] 5) (.ofSecret 5) = true ∧
    cryptoVerify [1, 2] (cryptoSign [1, 2] 5) (.ofSecret 6) = false ∧
    cryptoVerify [3] (cryptoSign [1, 2] 5) (.ofSecret 5) = false ∧
    cryptoVerify [1, 2] (.raw []) (.ofSecret 5) = false :=
  ⟨(crypto_verify_sound [1, 2] [3] 5 6 []).1,
   (crypto_verify_sound [1, 2] [3] 5 6 []).2.1 (by decide),
   (crypto_verify_sound [1, 2] [3] 5 6 []).2.2.1 (by decide),
   (crypto_verify_sound [1, 2] [3] 5 6 []).2.2.2⟩

/- ## Claim hash tree, verifier and redaction (spec sections 4.2-4.4)

The RequestForAttestation implementation is not under src/; only its test
suite (src/unnamed/part_001) is. The builder, verifyData and the redaction
operations below are therefore modelled from the spec, with the behaviour
pinned by the tests in part_001: the claim hash tree keeps one entry per
property carrying a hash and an optional nonce; redaction deletes the value
from contents and only the nonce from the tree entry (the per-key hash
survives, part_001 lines 258-261), and the root hash is recomputed over all
surviving tree-entry hashes, so deleting a whole tree entry flips the root
comparison (part_001 lines 87-91). -/

/-- Modelled from the spec: the canonical serialization of the value a nonce
entry commits to — a claim property value, the owner address, or the cType
hash, kept apart so serializations of distinct kinds never collide. -/
inductive SerializedValue where
  | prop (value : String)
  | ownerAddr (a : Nat)
  | ctype (s : String)
deriving DecidableEq, Repr

/-- Modelled from the spec: the digest function of section 4.1 as a free term
algebra, which makes it deterministic and perfectly collision resistant. A
leaf is H(nonce || canonicalSerialize(value)); the digest over a sequence of
per-entry hashes plus the delegation id is modelled as the right-nested
pairing of the leaves ending in the delegation id (rootDigest below). -/
inductive HDigest where
  | leaf (nonce : String) (serialized : SerializedValue)
  | pair (left right : HDigest)
  | base (delegationId : Option String)
deriving DecidableEq, Repr

/-- The root digest over an ordered list of leaves and the delegation id. -/
def rootDigest (leaves : List HDigest) (delegationId : Option String) : HDigest :=
  leaves.foldr .pair (.base delegationId)

/-- Modelled from the spec: the claimer signature over the root hash. -/
inductive HSignature where
  | signed (message : HDigest) (sk : Nat)
deriving DecidableEq, Repr

def hverify (message : HDigest) (sig : HSignature) (pubKey : Nat) : Bool :=
  match sig with
  | .signed m k => m == message && k == pubKey

/-- One entry of the claim hash tree: a committed hash and an optional nonce
(the nonce is deleted by redaction, the hash never is). -/
structure NonceHashEntry where
  hash : HDigest
  nonce : Option String
deriving DecidableEq, Repr

/-- The claim under the old request layout used by part_001: cType hash,
optional owner (an address, modelled as the key id) and flat contents. -/
structure TreeClaim where
  cType : String
  owner : Option Nat
  contents : List (String × String)
deriving DecidableEq, Repr

/-- The request-for-attestation of part_001: claim, the distinguished owner
and cType nonce entries, the per-property claim hash tree, the root hash
(field name hash in part_001), the claimer signature, the legitimation root
hashes and the delegation id. -/
structure TreeRequest where
  claim : TreeClaim
  claimOwner : NonceHashEntry
  ctypeHashEntry : NonceHashEntry
  claimHashTree : List (String × NonceHashEntry)
  rootHash : HDigest
  claimerSignature : HSignature
  legitimationHashes : List HDigest
  delegationId : Option String
deriving DecidableEq, Repr

def lookupKey {α : Type} (k : String) : List (String × α) → Option α
  | [] => none
  | e :: rest => if e.1 = k then some e.2 else lookupKey k rest

/-- Modelled from the spec (4.2): one salted commitment per property,
digest = H(nonce || canonicalSerialize(value)), stored with its nonce and
keyed by the property name. -/
def buildClaimHashTree (nonces : String → String) (contents : List (String × String)) :
    List (String × NonceHashEntry) :=
  contents.map fun kv => (kv.1, ⟨.leaf (nonces kv.1) (.prop kv.2), some (nonces kv.1)⟩)

/-- Modelled from the spec (4.2): the leaves combined into the root are the
owner entry hash, the cType entry hash, every claim-hash-tree entry hash and
the legitimation root hashes. -/
def getHashLeaves (claimOwnerHash ctypeHash : HDigest) (tree : List (String × NonceHashEntry))
    (legitimations : List HDigest) : List HDigest :=
  claimOwnerHash :: ctypeHash :: (tree.map (fun kv => kv.2.hash) ++ legitimations)

def calculateRootHash (r : TreeRequest) : HDigest :=
  rootDigest (getHashLeaves r.claimOwner.hash r.ctypeHashEntry.hash r.claimHashTree
    r.legitimationHashes) r.delegationId

/-- Modelled from the spec (4.2): RequestForAttestation.fromClaimAndIdentity.
Draws a nonce for the owner, the cType and every property, commits to each,
computes the root over all entry hashes and signs it with the claimer key. -/
def fromContentsAndIdentity (cType : String) (contents : List (String × String)) (sk : Nat)
    (ownerNonce ctypeNonce : String) (nonces : String → String)
    (legitimations : List HDigest) (delegationId : Option String) : TreeRequest :=
  let claimOwner : NonceHashEntry := ⟨.leaf ownerNonce (.ownerAddr sk), some ownerNonce⟩
  let ctypeEntry : NonceHashEntry := ⟨.leaf ctypeNonce (.ctype cType), some ctypeNonce⟩
  let tree := buildClaimHashTree nonces contents
  let root : HDigest := rootDigest (getHashLeaves claimOwner.hash ctypeEntry.hash tree
    legitimations) delegationId
  { claim := ⟨cType, some sk, contents⟩
    claimOwner := claimOwner
    ctypeHashEntry := ctypeEntry
    claimHashTree := tree
    rootHash := root
    claimerSignature := .signed root sk
    legitimationHashes := legitimations
    delegationId := delegationId }

inductive VerifyError where
  | missingEntry
  | missingNonce
  | hashMismatch
deriving DecidableEq, Repr

/-- Modelled from the spec (4.4 step 1-2): a surviving value must have a tree
entry with a live nonce whose recomputed commitment matches the stored hash;
a missing nonce or a hash mismatch throws. -/
def verifyEntry (entry : NonceHashEntry) (val : SerializedValue) : Except VerifyError Unit :=
  match entry.nonce with
  | none => .error .missingNonce
  | some n => if entry.hash = .leaf n val then .ok () else .error .hashMismatch

def checkContents (tree : List (String × NonceHashEntry)) :
    List (String × String) → Except VerifyError Unit
  | [] => .ok ()
  | (k, v) :: rest =>
    match lookupKey k tree with
    | none => .error .missingEntry
    | some e =>
      match verifyEntry e (.prop v) with
      | .error err => .error err
      | .ok _ => checkContents tree rest

/-- Sequencing of the throwing checks: an error short-circuits. -/
def exceptSeq {E A B : Type} : Except E A → Except E B → Except E B
  | .error e, _ => .error e
  | .ok _, b => b

@[simp]
theorem exceptSeq_ok {E A B : Type} (a : A) (b : Except E B) :
    exceptSeq (.ok a) b = b := rfl

@[simp]
theorem exceptSeq_error {E A B : Type} (e : E) (b : Except E B) :
    exceptSeq (A := A) (.error e) b = .error e := rfl

/-- Modelled from the spec (4.4): verifyData first compares the stored root
hash with the root recomputed from the surviving tree-entry hashes (false on
mismatch, part_001 line 91), then checks the owner and cType commitments and
every surviving property commitment (throwing on a corrupted nonce, part_001
lines 104-108), and finally checks the claimer signature over the root
against the claimed owner (skipped when the owner was redacted). -/
def verifyData (r : TreeRequest) : Except VerifyError Bool :=
  if r.rootHash ≠ calculateRootHash r then .ok false
  else
    exceptSeq (match r.claim.owner with
               | some o => verifyEntry r.claimOwner (.ownerAddr o)
               | none => .ok ())
      (exceptSeq (verifyEntry r.ctypeHashEntry (.ctype r.claim.cType))
        (exceptSeq (checkContents r.claimHashTree r.claim.contents)
          (match r.claim.owner with
           | some o => .ok (hverify r.rootHash r.claimerSignature o)
           | none => .ok true)))

/-- Deleting a property key outright, as in part_001 lines 89-90: the key is
removed from contents and the whole entry from the claim hash tree. -/
def deleteProperty (k : String) (r : TreeRequest) : TreeRequest :=
  { r with
    claim := { r.claim with contents := r.claim.contents.filter fun p => p.1 ≠ k }
    claimHashTree := r.claimHashTree.filter fun p => p.1 ≠ k }

/-- Overwriting the nonce of one tree entry, as in part_001 line 105. -/
def setTreeNonce (k : String) (n : String) (r : TreeRequest) : TreeRequest :=
  { r with
    claimHashTree := r.claimHashTree.map fun p =>
      if p.1 = k then (p.1, ⟨p.2.hash, some n⟩) else p }

/-- Modelled from the spec (4.3) and part_001 lines 256-261:
removeClaimProperties deletes each named key from contents and the nonce of
the matching tree entry, leaving the entry hash, the root hash, the
signature and all other entries untouched. -/
def removeClaimProperties (names : List String) (r : TreeRequest) : TreeRequest :=
  { r with
    claim := { r.claim with contents := r.claim.contents.filter fun p => ¬ names.contains p.1 }
    claimHashTree := r.claimHashTree.map fun p =>
      if names.contains p.1 then (p.1, ⟨p.2.hash, none⟩) else p }

/- ### Supporting lemmas for the hash-tree theorems -/

theorem lookupKey_build (nonces : String → String) (contents : List (String × String))
    (k : String) :
    lookupKey k (buildClaimHashTree nonces contents) =
      (lookupKey k contents).map
        (fun v => ⟨.leaf (nonces k) (.prop v), some (nonces k)⟩) := by
  induction contents with
  | nil => rfl
  | cons kv rest ih =>
    by_cases hk : kv.1 = k
    · subst hk
      simp [buildClaimHashTree, lookupKey]
    · simp only [buildClaimHashTree, List.map_cons, lookupKey, hk, if_neg] at *
      exact ih

theorem lookupKey_of_mem_nodup {α : Type} (l : List (String × α)) (k : String) (v : α)
    (hnodup : (l.map Prod.fst).Nodup) (hmem : (k, v) ∈ l) :
    lookupKey k l = some v := by
  induction l with
  | nil => cases hmem
  | cons kv rest ih =>
    simp only [List.map_cons, List.nodup_cons] at hnodup
    rcases List.mem_cons.mp hmem with heq | htail
    · subst heq
      simp [lookupKey]
    · have hne : kv.1 ≠ k := by
        intro hc
        exact hnodup.1 (hc ▸ (List.mem_map.mpr ⟨(k, v), htail, rfl⟩))
      simp only [lookupKey, hne, if_neg, if_false]
      exact ih hnodup.2 htail

theorem lookupKey_mapIf (P : String → Prop) [DecidablePred P]
    (g : NonceHashEntry → NonceHashEntry) (l : List (String × NonceHashEntry)) (k : String) :
    lookupKey k (l.map fun p => if P p.1 then (p.1, g p.2) else p) =
      if P k then (lookupKey k l).map g else lookupKey k l := by
  induction l with
  | nil => simp [lookupKey]
  | cons p rest ih =>
    by_cases hk : p.1 = k
    · subst hk
      by_cases hp : P p.1 <;> simp [lookupKey, hp, ih]
    · by_cases hp : P p.1 <;> simp [lookupKey, hp, hk, ih]

theorem hashes_mapIf (P : String → Prop) [DecidablePred P]
    (g : NonceHashEntry → NonceHashEntry) (hg : ∀ e, (g e).hash = e.hash)
    (l : List (String × NonceHashEntry)) :
    (l.map fun p => if P p.1 then (p.1, g p.2) else p).map (fun p => p.2.hash) =
      l.map (fun p => p.2.hash) := by
  induction l with
  | nil => rfl
  | cons p rest ih =>
    by_cases hp : P p.1 <;> simp [hp, ih, hg]

theorem rootDigest_ne_of_length_ne (l1 l2 : List HDigest) (d1 d2 : Option String)
    (h : l1.length ≠ l2.length) : rootDigest l1 d1 ≠ rootDigest l2 d2 := by
  induction l1 generalizing l2 with
  | nil =>
    cases l2 with
    | nil => exact absurd rfl h
    | cons y ys => simp [rootDigest]
  | cons x xs ih =>
    cases l2 with
    | nil => simp [rootDigest]
    | cons y ys =>
      simp only [rootDigest, List.foldr_cons] at *
      intro hc
      injection hc with h1 h2
      exact ih ys (by simpa using h) h2

theorem length_filter_lt_of_lookup {α : Type} (l : List (String × α)) (k : String) (e : α)
    (hfound : lookupKey k l = some e) :
    (l.filter fun p => p.1 ≠ k).length < l.length := by
  induction l with
  | nil => simp [lookupKey] at hfound
  | cons p rest ih =>
    by_cases hk : p.1 = k
    · have hcond : decide (p.1 ≠ k) = false := by simp [hk]
      simp only [List.filter_cons, hcond, Bool.false_eq_true, if_false, List.length_cons]
      have hle := List.length_filter_le (fun q : String × α => decide (q.1 ≠ k)) rest
      omega
    · have hcond : decide (p.1 ≠ k) = true := by simp [hk]
      simp only [lookupKey, hk, if_neg, if_false] at hfound
      simp only [List.filter_cons, hcond, if_true, List.length_cons]
      have := ih hfound
      omega

theorem checkContents_of_lookup (tree : List (String × NonceHashEntry))
    (contents : List (String × String))
    (h : ∀ k v, (k, v) ∈ contents →
      ∃ n, lookupKey k tree = some ⟨.leaf n (.prop v), some n⟩) :
    checkContents tree contents = .ok () := by
  induction contents with
  | nil => rfl
  | cons kv rest ih =>
    obtain ⟨n, hn⟩ := h kv.1 kv.2 (by simp)
    have : checkContents tree (kv :: rest) =
        (match lookupKey kv.1 tree with
         | none => Except.error VerifyError.missingEntry
         | some e =>
           match verifyEntry e (.prop kv.2) with
           | .error err => .error err
           | .ok _ => checkContents tree rest) := rfl
    rw [this, hn]
    simp only [verifyEntry, if_pos rfl]
    exact ih fun k v hm => h k v (List.mem_cons_of_mem _ hm)

theorem checkContents_error (tree : List (String × NonceHashEntry))
    (contents : List (String × String)) (k : String)
    (hmem : ∃ v, (k, v) ∈ contents)
    (hgood : ∀ k2 v2, (k2, v2) ∈ contents → k2 ≠ k →
      ∃ n, lookupKey k2 tree = some ⟨.leaf n (.prop v2), some n⟩)
    (hbad : ∀ v2, (k, v2) ∈ contents →
      ∃ e, lookupKey k tree = some e ∧ verifyEntry e (.prop v2) = .error .hashMismatch) :
    checkContents tree contents = .error .hashMismatch := by
  induction contents with
  | nil => simp at hmem
  | cons kv rest ih =>
    have hstep : checkContents tree (kv :: rest) =
        (match lookupKey kv.1 tree with
         | none => Except.error VerifyError.missingEntry
         | some e =>
           match verifyEntry e (.prop kv.2) with
           | .error err => .error err
           | .ok _ => checkContents tree rest) := rfl
    by_cases hk : kv.1 = k
    · obtain ⟨e, he, hve⟩ := hbad kv.2 (by rw [← hk]; exact List.mem_cons_self _ _)
      rw [hstep, hk, he]
      simp only [hve]
    · obtain ⟨n, hn⟩ := hgood kv.1 kv.2 (by simp) hk
      rw [hstep, hn]
      simp only [verifyEntry, if_pos rfl]
      refine ih ?_ (fun k2 v2 hm hne => hgood k2 v2 (List.mem_cons_of_mem _ hm) hne)
        (fun v2 hm => hbad v2 (List.mem_cons_of_mem _ hm))
      obtain ⟨v, hv⟩ := hmem
      rcases List.mem_cons.mp hv with heq | htail
      · exact absurd (congrArg Prod.fst heq).symm hk
      · exact ⟨v, htail⟩

/- ### Projection facts for built and mutated requests -/

theorem fromContents_parts (cT : String) (conts : List (String × String)) (sk : Nat)
    (oN cN : String) (nons : String → String) (legs : List HDigest) (did : Option String) :
    (fromContentsAndIdentity cT conts sk oN cN nons legs did).claim = ⟨cT, some sk, conts⟩ ∧
    (fromContentsAndIdentity cT conts sk oN cN nons legs did).claimOwner =
      ⟨.leaf oN (.ownerAddr sk), some oN⟩ ∧
    (fromContentsAndIdentity cT conts sk oN cN nons legs did).ctypeHashEntry =
      ⟨.leaf cN (.ctype cT), some cN⟩ ∧
    (fromContentsAndIdentity cT conts sk oN cN nons legs did).claimHashTree =
      buildClaimHashTree nons conts ∧
    (fromContentsAndIdentity cT conts sk oN cN nons legs did).rootHash =
      calculateRootHash (fromContentsAndIdentity cT conts sk oN cN nons legs did) ∧
    (fromContentsAndIdentity cT conts sk oN cN nons legs did).claimerSignature =
      .signed (fromContentsAndIdentity cT conts sk oN cN nons legs did).rootHash sk :=
  ⟨rfl, rfl, rfl, rfl, rfl, rfl⟩

theorem verifyData_root_ne (r : TreeRequest) (h : r.rootHash ≠ calculateRootHash r) :
    verifyData r = .ok false := by
  unfold verifyData
  rw [if_pos h]

theorem verifyData_root_eq (r : TreeRequest) (h : r.rootHash = calculateRootHash r) :
    verifyData r =
      exceptSeq (match r.claim.owner with
                 | some o => verifyEntry r.claimOwner (.ownerAddr o)
                 | none => .ok ())
        (exceptSeq (verifyEntry r.ctypeHashEntry (.ctype r.claim.cType))
          (exceptSeq (checkContents r.claimHashTree r.claim.contents)
            (match r.claim.owner with
             | some o => .ok (hverify r.rootHash r.claimerSignature o)
             | none => .ok true))) := by
  unfold verifyData
  rw [if_neg (by simp [h])]

theorem lookupKey_filter_out {α : Type} (l : List (String × α)) (P : String → Prop)
    [DecidablePred P] (k : String) (hk : P k) :
    lookupKey k (l.filter fun p => ¬ P p.1) = none := by
  induction l with
  | nil => rfl
  | cons p rest ih =>
    by_cases hp : P p.1
    · simp only [List.filter_cons, hp, not_true_eq_false, decide_False, Bool.false_eq_true,
        if_false]
      exact ih
    · have hne : p.1 ≠ k := fun hc => hp (hc ▸ hk)
      simp only [List.filter_cons, hp, not_false_eq_true, decide_True, if_true, lookupKey,
        hne, if_neg, if_false]
      exact ih

theorem lookupKey_filter_keep {α : Type} (l : List (String × α)) (P : String → Prop)
    [DecidablePred P] (k : String) (hk : ¬ P k) :
    lookupKey k (l.filter fun p => ¬ P p.1) = lookupKey k l := by
  induction l with
  | nil => rfl
  | cons p rest ih =>
    by_cases hpk : p.1 = k
    · subst hpk
      simp only [List.filter_cons, hk, not_false_eq_true, decide_True, if_true, lookupKey,
        if_pos rfl]
    · by_cases hp : P p.1
      · simp only [List.filter_cons, hp, not_true_eq_false, decide_False, Bool.false_eq_true,
          if_false, lookupKey, hpk, if_neg, if_false]
        exact ih
      · simp only [List.filter_cons, hp, not_false_eq_true, decide_True, if_true, lookupKey,
          hpk, if_neg, if_false]
        exact ih

theorem lookupKey_setNonce (k0 nN : String) (l : List (String × NonceHashEntry))
    (k2 : String) :
    lookupKey k2 (l.map fun p =>
        if p.1 = k0 then (p.1, (⟨p.2.hash, some nN⟩ : NonceHashEntry)) else p) =
      if k2 = k0 then (lookupKey k2 l).map (fun e => ⟨e.hash, some nN⟩)
      else lookupKey k2 l :=
  lookupKey_mapIf (fun s => s = k0) (fun e => ⟨e.hash, some nN⟩) l k2

theorem lookupKey_removeNonce (names : List String) (l : List (String × NonceHashEntry))
    (k2 : String) :
    lookupKey k2 (l.map fun p =>
        if names.contains p.1 then (p.1, (⟨p.2.hash, none⟩ : NonceHashEntry)) else p) =
      if names.contains k2 then (lookupKey k2 l).map (fun e => ⟨e.hash, none⟩)
      else lookupKey k2 l :=
  lookupKey_mapIf (fun s => names.contains s = true) (fun e => ⟨e.hash, none⟩) l k2

theorem hashes_setNonce (k0 nN : String) (l : List (String × NonceHashEntry)) :
    (l.map fun p =>
        if p.1 = k0 then (p.1, (⟨p.2.hash, some nN⟩ : NonceHashEntry)) else p).map
      (fun p => p.2.hash) = l.map (fun p => p.2.hash) :=
  hashes_mapIf (fun s => s = k0) (fun e => ⟨e.hash, some nN⟩) (fun _ => rfl) l

theorem hashes_removeNonce (names : List String) (l : List (String × NonceHashEntry)) :
    (l.map fun p =>
        if names.contains p.1 then (p.1, (⟨p.2.hash, none⟩ : NonceHashEntry)) else p).map
      (fun p => p.2.hash) = l.map (fun p => p.2.hash) :=
  hashes_mapIf (fun s => names.contains s = true) (fun e => ⟨e.hash, none⟩) (fun _ => rfl) l

/-- C1: for every request built by the hash-tree builder and signed by the
claimer, verifyData returns true on the untampered request; replacing the
nonce of any retained property commitment with a different value makes
verifyData throw a hash-mismatch error, and deleting any property key from
both claim.contents and the claim hash tree makes verifyData return false —
it never silently passes. -/
theorem request_verify_tamper_detection
    (cT : String) (conts : List (String × String)) (sk : Nat)
    (oN cN : String) (nons : String → String) (legs : List HDigest) (did : Option String)
    (k v nN : String)
    (hnodup : (conts.map Prod.fst).Nodup) :
    verifyData (fromContentsAndIdentity cT conts sk oN cN nons legs did) = .ok true ∧
    ((k, v) ∈ conts → nN ≠ nons k →
      verifyData (setTreeNonce k nN (fromContentsAndIdentity cT conts sk oN cN nons legs did)) =
        .error .hashMismatch) ∧
    ((k, v) ∈ conts →
      verifyData (deleteProperty k (fromContentsAndIdentity cT conts sk oN cN nons legs did)) =
        .ok false) := by
  obtain ⟨hclaim, hco, hct, htree, hroot, hsig⟩ :=
    fromContents_parts cT conts sk oN cN nons legs did
  refine ⟨?_, ?_, ?_⟩
  · have hcheck : checkContents (buildClaimHashTree nons conts) conts = .ok () := by
      refine checkContents_of_lookup _ _ (fun k2 v2 hm => ⟨nons k2, ?_⟩)
      rw [lookupKey_build, lookupKey_of_mem_nodup conts k2 v2 hnodup hm]
      rfl
    rw [verifyData_root_eq _ hroot, hclaim, hco, hct, htree, hsig]
    simp [verifyEntry, hcheck, hverify]
  · intro hmem hnn
    have hfound : lookupKey k (buildClaimHashTree nons conts) =
        some ⟨.leaf (nons k) (.prop v), some (nons k)⟩ := by
      rw [lookupKey_build, lookupKey_of_mem_nodup conts k v hnodup hmem]
      rfl
    have hmap : ((buildClaimHashTree nons conts).map fun p =>
          if p.1 = k then (p.1, (⟨p.2.hash, some nN⟩ : NonceHashEntry)) else p).map
        (fun p => p.2.hash) = (buildClaimHashTree nons conts).map (fun p => p.2.hash) :=
      hashes_setNonce k nN _
    have hrooteq :
        (setTreeNonce k nN (fromContentsAndIdentity cT conts sk oN cN nons legs did)).rootHash =
        calculateRootHash
          (setTreeNonce k nN (fromContentsAndIdentity cT conts sk oN cN nons legs did)) := by
      show rootDigest (getHashLeaves (HDigest.leaf oN (.ownerAddr sk))
          (HDigest.leaf cN (.ctype cT)) (buildClaimHashTree nons conts) legs) did =
        rootDigest (getHashLeaves (HDigest.leaf oN (.ownerAddr sk))
          (HDigest.leaf cN (.ctype cT)) ((buildClaimHashTree nons conts).map fun p =>
            if p.1 = k then (p.1, (⟨p.2.hash, some nN⟩ : NonceHashEntry)) else p) legs) did
      unfold getHashLeaves
      rw [hmap]
    have hbadcheck : checkContents ((buildClaimHashTree nons conts).map fun p =>
          if p.1 = k then (p.1, (⟨p.2.hash, some nN⟩ : NonceHashEntry)) else p) conts =
        .error .hashMismatch := by
      refine checkContents_error _ conts k ⟨v, hmem⟩ ?_ ?_
      · intro k2 v2 hm hne
        refine ⟨nons k2, ?_⟩
        rw [lookupKey_setNonce k nN _ k2, if_neg hne, lookupKey_build,
          lookupKey_of_mem_nodup conts k2 v2 hnodup hm]
        rfl
      · intro v2 hm
        have hv2 : v2 = v := by
          have h1 := lookupKey_of_mem_nodup conts k v2 hnodup hm
          have h2 := lookupKey_of_mem_nodup conts k v hnodup hmem
          rw [h1] at h2
          exact Option.some.inj h2
        subst hv2
        refine ⟨⟨.leaf (nons k) (.prop v2), some nN⟩, ?_, ?_⟩
        · rw [lookupKey_setNonce k nN _ k, if_pos rfl, hfound]
          rfl
        · simp only [verifyEntry]
          rw [if_neg]
          intro hc
          exact hnn (HDigest.leaf.inj hc).1.symm
    rw [verifyData_root_eq _ hrooteq]
    show exceptSeq (verifyEntry ⟨.leaf oN (.ownerAddr sk), some oN⟩ (.ownerAddr sk))
      (exceptSeq (verifyEntry ⟨.leaf cN (.ctype cT), some cN⟩ (.ctype cT))
        (exceptSeq (checkContents ((buildClaimHashTree nons conts).map fun p =>
            if p.1 = k then (p.1, (⟨p.2.hash, some nN⟩ : NonceHashEntry)) else p) conts)
          (.ok (hverify
            (setTreeNonce k nN (fromContentsAndIdentity cT conts sk oN cN nons legs did)).rootHash
            (setTreeNonce k nN
              (fromContentsAndIdentity cT conts sk oN cN nons legs did)).claimerSignature
            sk)))) = .error .hashMismatch
    rw [hbadcheck]
    simp [verifyEntry]
  · intro hmem
    have hfound : lookupKey k (buildClaimHashTree nons conts) =
        some ⟨.leaf (nons k) (.prop v), some (nons k)⟩ := by
      rw [lookupKey_build, lookupKey_of_mem_nodup conts k v hnodup hmem]
      rfl
    have hlen := length_filter_lt_of_lookup _ k _ hfound
    apply verifyData_root_ne
    show rootDigest (getHashLeaves (HDigest.leaf oN (.ownerAddr sk))
        (HDigest.leaf cN (.ctype cT)) (buildClaimHashTree nons conts) legs) did ≠
      rootDigest (getHashLeaves (HDigest.leaf oN (.ownerAddr sk))
        (HDigest.leaf cN (.ctype cT))
        ((buildClaimHashTree nons conts).filter fun p => p.1 ≠ k) legs) did
    apply rootDigest_ne_of_length_ne
    simp only [getHashLeaves, List.length_cons, List.length_append, List.length_map]
    omega

/-- Witness for C1: the concrete scenario of part_001 — contents
{a: a, b: b, c: c} built and signed by a claimer, one legitimation. -/
theorem request_verify_tamper_detection_witness :
    verifyData (fromContentsAndIdentity "ct" [("a", "a"), ("b", "b"), ("c", "c")] 2 "on" "cn"
      (fun s => s ++ "0") [HDigest.base none] none) = .ok true ∧
    verifyData (setTreeNonce "a" "1234" (fromContentsAndIdentity "ct"
      [("a", "a"), ("b", "b"), ("c", "c")] 2 "on" "cn" (fun s => s ++ "0")
      [HDigest.base none] none)) = .error .hashMismatch ∧
    verifyData (deleteProperty "a" (fromContentsAndIdentity "ct"
      [("a", "a"), ("b", "b"), ("c", "c")] 2 "on" "cn" (fun s => s ++ "0")
      [HDigest.base none] none)) = .ok false := by
  have h := request_verify_tamper_detection "ct" [("a", "a"), ("b", "b"), ("c", "c")] 2 "on" "cn"
    (fun s => s ++ "0") [HDigest.base none] none "a" "a" "1234" (by decide)
  exact ⟨h.1, h.2.1 (by decide) (by decide), h.2.2 (by decide)⟩

/-- C2: removeClaimProperties on one retained property removes its value from
claim.contents and its nonce from the nonce map, leaves every other retained
property value and nonce present, leaves the root hash, the per-entry claim
hashes and the claimer signature unchanged, and the redacted request still
passes verifyData. -/
theorem remove_claim_properties_frame
    (cT : String) (conts : List (String × String)) (sk : Nat)
    (oN cN : String) (nons : String → String) (legs : List HDigest) (did : Option String)
    (k v : String)
    (hnodup : (conts.map Prod.fst).Nodup) (hmem : (k, v) ∈ conts) :
    lookupKey k (removeClaimProperties [k]
      (fromContentsAndIdentity cT conts sk oN cN nons legs did)).claim.contents = none ∧
    lookupKey k (removeClaimProperties [k]
        (fromContentsAndIdentity cT conts sk oN cN nons legs did)).claimHashTree =
      some ⟨.leaf (nons k) (.prop v), none⟩ ∧
    (∀ j w, (j, w) ∈ conts → j ≠ k →
      lookupKey j (removeClaimProperties [k]
        (fromContentsAndIdentity cT conts sk oN cN nons legs did)).claim.contents = some w ∧
      lookupKey j (removeClaimProperties [k]
          (fromContentsAndIdentity cT conts sk oN cN nons legs did)).claimHashTree =
        some ⟨.leaf (nons j) (.prop w), some (nons j)⟩) ∧
    (removeClaimProperties [k]
        (fromContentsAndIdentity cT conts sk oN cN nons legs did)).rootHash =
      (fromContentsAndIdentity cT conts sk oN cN nons legs did).rootHash ∧
    (removeClaimProperties [k]
        (fromContentsAndIdentity cT conts sk oN cN nons legs did)).claimerSignature =
      (fromContentsAndIdentity cT conts sk oN cN nons legs did).claimerSignature ∧
    (removeClaimProperties [k]
        (fromContentsAndIdentity cT conts sk oN cN nons legs did)).claimHashTree.map
        (fun p => p.2.hash) =
      (fromContentsAndIdentity cT conts sk oN cN nons legs did).claimHashTree.map
        (fun p => p.2.hash) ∧
    verifyData (removeClaimProperties [k]
      (fromContentsAndIdentity cT conts sk oN cN nons legs did)) = .ok true := by
  have hfound : lookupKey k (buildClaimHashTree nons conts) =
      some ⟨.leaf (nons k) (.prop v), some (nons k)⟩ := by
    rw [lookupKey_build, lookupKey_of_mem_nodup conts k v hnodup hmem]
    rfl
  refine ⟨?_, ?_, ?_, rfl, rfl, ?_, ?_⟩
  · show lookupKey k (conts.filter fun p => ¬ ([k].contains p.1 = true)) = none
    exact lookupKey_filter_out conts (fun s => [k].contains s = true) k (by simp)
  · show lookupKey k ((buildClaimHashTree nons conts).map fun p =>
        if [k].contains p.1 then (p.1, (⟨p.2.hash, none⟩ : NonceHashEntry)) else p) =
      some ⟨.leaf (nons k) (.prop v), none⟩
    rw [lookupKey_removeNonce [k] _ k, if_pos (by simp), hfound]
    rfl
  · intro j w hjw hne
    have hcontains : ([k].contains j) = false := by
      simp [List.contains, hne]
    constructor
    · show lookupKey j (conts.filter fun p => ¬ ([k].contains p.1 = true)) = some w
      rw [lookupKey_filter_keep conts (fun s => [k].contains s = true) j
          (by show ¬ ([k].contains j = true); rw [hcontains]; simp),
        lookupKey_of_mem_nodup conts j w hnodup hjw]
    · show lookupKey j ((buildClaimHashTree nons conts).map fun p =>
          if [k].contains p.1 then (p.1, (⟨p.2.hash, none⟩ : NonceHashEntry)) else p) =
        some ⟨.leaf (nons j) (.prop w), some (nons j)⟩
      rw [lookupKey_removeNonce [k] _ j,
        if_neg (by show ¬ ([k].contains j = true); rw [hcontains]; simp), lookupKey_build,
        lookupKey_of_mem_nodup conts j w hnodup hjw]
      rfl
  · show ((buildClaimHashTree nons conts).map fun p =>
        if [k].contains p.1 then (p.1, (⟨p.2.hash, none⟩ : NonceHashEntry)) else p).map
        (fun p => p.2.hash) = (buildClaimHashTree nons conts).map (fun p => p.2.hash)
    exact hashes_removeNonce [k] _
  · have hrooteq :
        (removeClaimProperties [k]
          (fromContentsAndIdentity cT conts sk oN cN nons legs did)).rootHash =
        calculateRootHash (removeClaimProperties [k]
          (fromContentsAndIdentity cT conts sk oN cN nons legs did)) := by
      show rootDigest (getHashLeaves (HDigest.leaf oN (.ownerAddr sk))
          (HDigest.leaf cN (.ctype cT)) (buildClaimHashTree nons conts) legs) did =
        rootDigest (getHashLeaves (HDigest.leaf oN (.ownerAddr sk))
          (HDigest.leaf cN (.ctype cT)) ((buildClaimHashTree nons conts).map fun p =>
            if [k].contains p.1 then (p.1, (⟨p.2.hash, none⟩ : NonceHashEntry)) else p) legs) did
      unfold getHashLeaves
      rw [hashes_removeNonce [k] (buildClaimHashTree nons conts)]
    have hcheck : checkContents ((buildClaimHashTree nons conts).map fun p =>
          if [k].contains p.1 then (p.1, (⟨p.2.hash, none⟩ : NonceHashEntry)) else p)
        (conts.filter fun p => ¬ ([k].contains p.1 = true)) = .ok () := by
      refine checkContents_of_lookup _ _ (fun k2 v2 hm => ⟨nons k2, ?_⟩)
      have hm2 := List.mem_filter.mp hm
      have hmemc : (k2, v2) ∈ conts := hm2.1
      have hnc : ¬ ([k].contains k2 = true) := by simpa using hm2.2
      rw [lookupKey_removeNonce [k] _ k2, if_neg hnc, lookupKey_build,
        lookupKey_of_mem_nodup conts k2 v2 hnodup hmemc]
      rfl
    rw [verifyData_root_eq _ hrooteq]
    show exceptSeq (verifyEntry ⟨.leaf oN (.ownerAddr sk), some oN⟩ (.ownerAddr sk))
      (exceptSeq (verifyEntry ⟨.leaf cN (.ctype cT), some cN⟩ (.ctype cT))
        (exceptSeq (checkContents ((buildClaimHashTree nons conts).map fun p =>
            if [k].contains p.1 then (p.1, (⟨p.2.hash, none⟩ : NonceHashEntry)) else p)
            (conts.filter fun p => ¬ ([k].contains p.1 = true)))
          (.ok (hverify
            (fromContentsAndIdentity cT conts sk oN cN nons legs did).rootHash
            (HSignature.signed
              (fromContentsAndIdentity cT conts sk oN cN nons legs did).rootHash sk)
            sk)))) = .ok true
    rw [hcheck]
    simp [verifyEntry, hverify]

/-- Witness for C2 at the concrete contents {a: a, b: b} of part_001. -/
theorem remove_claim_properties_frame_witness :
    lookupKey "a" (removeClaimProperties ["a"]
      (fromContentsAndIdentity "ct" [("a", "a"), ("b", "b")] 2 "on" "cn"
        (fun s => s ++ "0") [] none)).claim.contents = none ∧
    lookupKey "a" (removeClaimProperties ["a"]
        (fromContentsAndIdentity "ct" [("a", "a"), ("b", "b")] 2 "on" "cn"
          (fun s => s ++ "0") [] none)).claimHashTree =
      some ⟨.leaf "a0" (.prop "a"), none⟩ ∧
    lookupKey "b" (removeClaimProperties ["a"]
      (fromContentsAndIdentity "ct" [("a", "a"), ("b", "b")] 2 "on" "cn"
        (fun s => s ++ "0") [] none)).claim.contents = some "b" ∧
    lookupKey "b" (removeClaimProperties ["a"]
        (fromContentsAndIdentity "ct" [("a", "a"), ("b", "b")] 2 "on" "cn"
          (fun s => s ++ "0") [] none)).claimHashTree =
      some ⟨.leaf "b0" (.prop "b"), some "b0"⟩ ∧
    verifyData (removeClaimProperties ["a"]
      (fromContentsAndIdentity "ct" [("a", "a"), ("b", "b")] 2 "on" "cn"
        (fun s => s ++ "0") [] none)) = .ok true := by
  have h := remove_claim_properties_frame "ct" [("a", "a"), ("b", "b")] 2 "on" "cn"
    (fun s => s ++ "0") [] none "a" "a" (by decide) (by decide)
  refine ⟨h.1, h.2.1, ?_, ?_, h.2.2.2.2.2.2⟩
  · exact (h.2.2.1 "b" "b" (by decide) (by decide)).1
  · exact (h.2.2.1 "b" "b" (by decide) (by decide)).2

/- ## Dynamic JS values (for the loosely-typed checks and the positional
encoding of src/unnamed/part_002)

TypeScript types are erased at runtime, so errorCheck, compress and
decompress act on dynamic values. A JS value is embedded as a first-order
term: arrays and objects are cons-chains ending in arrNil / objNil. -/

inductive Js where
  | null
  | undefined
  | bool (b : Bool)
  | num (n : Int)
  | str (s : String)
  | arrNil
  | arrCons (head : Js) (tail : Js)
  | objNil
  | objCons (key : String) (value : Js) (tail : Js)
deriving DecidableEq, Repr

/-- Property access obj[key]; undefined when absent or not an object. -/
def objGet : Js → String → Js
  | .objCons k v t, key => if k = key then v else objGet t key
  | _, _ => .undefined

/-- JS truthiness. -/
def jsTruthy : Js → Bool
  | .null => false
  | .undefined => false
  | .bool b => b
  | .num n => n != 0
  | .str s => s != ""
  | _ => true

/-- The JS typeof operator (null and arrays are objects). -/
def jsTypeof : Js → String
  | .null => "object"
  | .undefined => "undefined"
  | .bool _ => "boolean"
  | .num _ => "number"
  | .str _ => "string"
  | _ => "object"

/-- Array.isArray. -/
def jsIsArray : Js → Bool
  | .arrNil => true
  | .arrCons _ _ => true
  | _ => false

/-- Object.entries of an array: index keys paired with the elements. -/
def arrEntries (i : Nat) : Js → List (String × Js)
  | .arrCons h t => (toString i, h) :: arrEntries (i + 1) t
  | _ => []

/-- Object.entries: own enumerable entries of an object or array. -/
def jsEntries : Js → List (String × Js)
  | .objCons k v t => (k, v) :: jsEntries t
  | .arrCons h t => arrEntries 0 (.arrCons h t)
  | _ => []

/-- Modelled from the spec: DataUtils.validateHash is not under src/; per the
spec a digest is a fixed-width hex-encoded output, checked here as a
0x-prefixed 66-character hex string. -/
def isHexLower (c : Char) : Bool :=
  (48 ≤ c.toNat && c.toNat ≤ 57) || (97 ≤ c.toNat && c.toNat ≤ 102)

def validateHashB (s : String) : Bool :=
  match s.toList with
  | '0' :: 'x' :: rest => rest.length == 64 && rest.all isHexLower
  | _ => false

def validateHashValue : Js → Bool
  | .str s => validateHashB s
  | _ => false

/-- Modelled from the spec: DataUtils.validateAddress is not under src/; an
address is opaque, checked here as a nonempty string. -/
def validateAddressValue : Js → Bool
  | .str s => s != ""
  | _ => false

inductive SDKError where
  | CLAIM_NOT_PROVIDED
  | CTYPE_HASH_NOT_PROVIDED
  | ADDRESS_INVALID
  | CLAIM_CONTENTS_MALFORMED
  | HASH_MALFORMED
  | LEGITIMATIONS_NOT_PROVIDED
  | CLAIM_NONCE_MAP_NOT_PROVIDED
  | CLAIM_NONCE_MAP_MALFORMED
  | DELEGATION_ID_TYPE
  | DECOMPRESSION_ARRAY (component : String)
  | NO_PROOF_FOR_STATEMENT
  | INVALID_PROOF_FOR_STATEMENT
  | TYPE_ERROR
  | FUEL_EXHAUSTED
deriving DecidableEq, Repr

/-- ClaimUtils.errorCheck (packages/core/src/claim/Claim.utils.ts lines
22-41): missing cTypeHash, an invalid provided owner, a malformed contents
entry, and an invalid cTypeHash digest each throw, in source order. -/
def claimErrorCheck (input : Js) : Except SDKError Unit :=
  if !(jsTruthy (objGet input "cTypeHash")) then .error .CTYPE_HASH_NOT_PROVIDED
  else if jsTruthy (objGet input "owner") &&
      !(validateAddressValue (objGet input "owner")) then .error .ADDRESS_INVALID
  else if (objGet input "contents") != Js.undefined &&
      (jsEntries (objGet input "contents")).any (fun kv =>
        kv.1 == "" ||
          !(["string", "number", "boolean", "object"].contains (jsTypeof kv.2))) then
    .error .CLAIM_CONTENTS_MALFORMED
  else if !(validateHashValue (objGet input "cTypeHash")) then .error .HASH_MALFORMED
  else .ok ()

/-- One claimNonceMap entry test (part_002 lines 41-47): an empty digest key
is malformed; an invalid digest throws from validateHash; a non-string or
empty nonce is malformed. -/
def nonceEntryBad (dn : String × Js) : Except SDKError Bool :=
  if dn.1 == "" then .ok true
  else if !(validateHashB dn.1) then .error .HASH_MALFORMED
  else .ok (jsTypeof dn.2 != "string" || !(jsTruthy dn.2))

def someBadM : List (String × Js) → Except SDKError Bool
  | [] => .ok false
  | dn :: rest =>
    match nonceEntryBad dn with
    | .error e => .error e
    | .ok true => .ok true
    | .ok false => someBadM rest

/-- The claimNonceMap shape test of part_002 lines 39-48: a non-object is
malformed outright, otherwise the entries are scanned left to right. -/
def nonceMapCheck (nm : Js) : Except SDKError Bool :=
  if jsTypeof nm != "object" then .ok true
  else someBadM (jsEntries nm)

/-- Hex digit for a value below 16, lowercase. -/
def hexDigitChar (n : Nat) : Char :=
  Char.ofNat (if n < 10 then 48 + n else 87 + n)

def natToHexAux : Nat → Nat → List Char → List Char
  | 0, _, acc => acc
  | k + 1, n, acc => natToHexAux k (n / 16) (hexDigitChar (n % 16) :: acc)

/-- Two to the power 256, the size of the modelled digest space. -/
def hexModulus : Nat :=
  115792089237316195423570985008687907853269984665640564039457584007913129639936

/-- Modelled from the spec: the digest primitive of section 4.1 over
serialized strings (the Crypto wrapper is not under src/): a deterministic
fixed-width 0x-prefixed 64-hex-character output, here a 256-bit polynomial
fold of the input characters. Every output satisfies validateHashB. -/
def hashStr (s : String) : String :=
  ⟨'0' :: 'x' :: natToHexAux 64
    (s.toList.foldl (fun acc c => (acc * 131 + c.toNat + 1) % hexModulus) 7) []⟩

/-- Modelled from the spec: the canonical serialization of a dynamic value
(section 4.2); deterministic, and stable under key reordering on the
canonical key-sorted layout this development works with. -/
def serializeJs : Js → String
  | .null => "null"
  | .undefined => "undefined"
  | .bool true => "true"
  | .bool false => "false"
  | .num n => toString n
  | .str s => "(str:" ++ s ++ ")"
  | .arrNil => "(arr)"
  | .arrCons h t => "(arr:" ++ serializeJs h ++ ":" ++ serializeJs t ++ ")"
  | .objNil => "(obj)"
  | .objCons k v t => "(obj:" ++ k ++ ":" ++ serializeJs v ++ ":" ++ serializeJs t ++ ")"

/-- Modelled from the spec: the serialized statement of one claim property;
it covers the property name together with the value so distinct properties
commit to distinct statements, keeping the claimNonceMap keying
(Digest(statement), section 3) well defined. -/
def statementOfProp (k : String) (v : Js) : String :=
  "(" ++ k ++ ":" ++ serializeJs v ++ ")"

/-- Modelled from the spec: the serialized statement of the distinguished
claim-owner pseudo-property (section 4.2). -/
def statementOfOwner (owner : Js) : String :=
  "(owner:" ++ serializeJs owner ++ ")"

/-- Membership of a string among the elements of a JS array. -/
def jsArrContainsStr : Js → String → Bool
  | .arrCons (.str s) t, h => s == h || jsArrContainsStr t h
  | .arrCons _ t, h => jsArrContainsStr t h
  | _, _ => false

/-- Modelled from the spec: the per-statement commitment check of
verifyData (4.4 steps 1-2): the claimNonceMap must hold a nonce under the
digest of the statement — a missing or non-string entry throws — and the
salted recomputation H(nonce || statement) must appear among claimHashes,
else it throws (section 6: a nonce entry whose recomputed hash is not found
among claimHashes is a structural error). -/
def checkStatement (nm hashes : Js) (statement : String) : Except SDKError Unit :=
  match objGet nm (hashStr statement) with
  | .str nonce =>
    if jsArrContainsStr hashes (hashStr (nonce ++ statement)) then .ok ()
    else .error .INVALID_PROOF_FOR_STATEMENT
  | _ => .error .NO_PROOF_FOR_STATEMENT

def checkProps (nm hashes : Js) : List (String × Js) → Except SDKError Unit
  | [] => .ok ()
  | (k, v) :: rest =>
    match checkStatement nm hashes (statementOfProp k v) with
    | .error e => .error e
    | .ok _ => checkProps nm hashes rest

/-- Modelled from the spec: the throwing portion of
RequestForAttestation.verifyData, the call errorCheck makes at part_002
line 54 (the implementation is not under src/). Every surviving claim
property, and the owner when present, must pass the commitment check
against claimNonceMap and claimHashes (4.4 steps 1-2, section 6). The
root-hash and signature comparisons of 4.4 steps 3-4 make verifyData return
false rather than throw, and errorCheck discards the returned boolean, so
they do not gate compression and are not modelled here; a tree entry whose
property was redacted is likewise not rechecked (4.3). -/
def verifyDataThrows (input : Js) : Except SDKError Unit :=
  match (if jsTruthy (objGet (objGet input "claim") "owner")
         then checkStatement (objGet input "claimNonceMap") (objGet input "claimHashes")
           (statementOfOwner (objGet (objGet input "claim") "owner"))
         else .ok () : Except SDKError Unit) with
  | .error e => .error e
  | .ok _ =>
    checkProps (objGet input "claimNonceMap") (objGet input "claimHashes")
      (jsEntries (objGet (objGet input "claim") "contents"))

/-- errorCheck of src/unnamed/part_002 lines 26-54, translated check for
check over dynamic values: the claim gate, the legitimations gate written
exactly as in the source (`!input.legitimations &&
!Array.isArray(input.legitimations)`), the claimNonceMap gates, the
delegationId gate written exactly as in the source
(`typeof input.delegationId !== 'string' && !input.delegationId === null`,
where `!input.delegationId` is a boolean compared against null), and
finally the RequestForAttestation.verifyData call of line 54, modelled from
the spec as verifyDataThrows since that implementation is not under src/. -/
def errorCheckStructural (input : Js) : Except SDKError Unit :=
  match (if !(jsTruthy (objGet input "claim")) then .error .CLAIM_NOT_PROVIDED
         else claimErrorCheck (objGet input "claim") : Except SDKError Unit) with
  | .error e => .error e
  | .ok _ =>
    if !(jsTruthy (objGet input "legitimations")) &&
        !(jsIsArray (objGet input "legitimations")) then .error .LEGITIMATIONS_NOT_PROVIDED
    else if !(jsTruthy (objGet input "claimNonceMap")) then .error .CLAIM_NONCE_MAP_NOT_PROVIDED
    else
      match nonceMapCheck (objGet input "claimNonceMap") with
      | .error e => .error e
      | .ok bad =>
        if bad then .error .CLAIM_NONCE_MAP_MALFORMED
        else if jsTypeof (objGet input "delegationId") != "string" &&
            (Js.bool (!(jsTruthy (objGet input "delegationId"))) == Js.null) then
          .error .DELEGATION_ID_TYPE
        else verifyDataThrows input

/- ### Error-gate claims -/

def hash66 : String :=
  "0xaaaaaaaaaaaaaaaaaaaaaaaaaaaaaaaaaaaaaaaaaaaaaaaaaaaaaaaaaaaaaaaa"

/-- A valid claim with empty contents and an erased owner (both legal per
spec 4.2/4.3), in canonical layout. -/
def emptyClaimJs : Js :=
  .objCons "contents" .objNil
    (.objCons "cTypeHash" (.str hash66) (.objCons "owner" .null .objNil))

/-- An input whose legitimations field is a plain object: truthy but not an
array; every other field is valid, and the verifyData commitment gate holds
vacuously (no surviving statement). -/
def legitObjectInput : Js :=
  .objCons "claim" emptyClaimJs (.objCons "legitimations" .objNil
    (.objCons "claimNonceMap" .objNil .objNil))

/-- An input whose delegationId is the number 42: neither a string nor null;
every other field is valid. -/
def delegNumberInput : Js :=
  .objCons "claim" emptyClaimJs (.objCons "legitimations" .arrNil
    (.objCons "claimNonceMap" .objNil (.objCons "delegationId" (.num 42) .objNil)))

theorem claimErrorCheck_ne_deleg (c : Js) :
    claimErrorCheck c ≠ .error .DELEGATION_ID_TYPE := by
  unfold claimErrorCheck
  split
  · simp
  · split
    · simp
    · split
      · simp
      · split <;> simp

theorem someBadM_ne_deleg (l : List (String × Js)) :
    someBadM l ≠ .error .DELEGATION_ID_TYPE := by
  induction l with
  | nil => simp [someBadM]
  | cons dn rest ih =>
    unfold someBadM
    cases hb : nonceEntryBad dn with
    | error e =>
      unfold nonceEntryBad at hb
      split at hb
      · cases hb
      · split at hb
        · injection hb with he
          subst he
          simp
        · cases hb
    | ok b =>
      cases b
      · exact ih
      · simp

theorem nonceMapCheck_ne_deleg (nm : Js) :
    nonceMapCheck nm ≠ .error .DELEGATION_ID_TYPE := by
  unfold nonceMapCheck
  split
  · simp
  · exact someBadM_ne_deleg _

theorem checkStatement_ne_deleg (nm hashes : Js) (st : String) :
    checkStatement nm hashes st ≠ .error .DELEGATION_ID_TYPE := by
  unfold checkStatement
  split
  · split <;> simp
  · simp

theorem checkProps_ne_deleg (nm hashes : Js) (l : List (String × Js)) :
    checkProps nm hashes l ≠ .error .DELEGATION_ID_TYPE := by
  induction l with
  | nil => simp [checkProps]
  | cons kv rest ih =>
    unfold checkProps
    cases hs : checkStatement nm hashes (statementOfProp kv.1 kv.2) with
    | error e =>
      intro hc
      injection hc with he
      subst he
      exact checkStatement_ne_deleg nm hashes (statementOfProp kv.1 kv.2) hs
    | ok u => exact ih

theorem verifyDataThrows_ne_deleg (input : Js) :
    verifyDataThrows input ≠ .error .DELEGATION_ID_TYPE := by
  unfold verifyDataThrows
  cases ho : (if jsTruthy (objGet (objGet input "claim") "owner")
      then checkStatement (objGet input "claimNonceMap") (objGet input "claimHashes")
        (statementOfOwner (objGet (objGet input "claim") "owner"))
      else .ok () : Except SDKError Unit) with
  | error e =>
    intro hc
    injection hc with he
    subst he
    split at ho
    · exact checkStatement_ne_deleg _ _ _ ho
    · cases ho
  | ok u => exact checkProps_ne_deleg _ _ _

theorem jsbool_beq_null (b : Bool) : (Js.bool b == Js.null) = false := by
  cases b <;> rfl

/-- C7: the legitimations gate of errorCheck (part_002 line 32) is written
`!input.legitimations && !Array.isArray(input.legitimations)`, which is
equivalent to `!input.legitimations` alone: a truthy non-array legitimations
value, such as a plain object, passes the whole structural check without
ERROR_LEGITIMATIONS_NOT_PROVIDED ever being raised, although the function
documentation (part_002 line 22) promises a throw when legitimations is of
the wrong type. -/
theorem legitimations_wrong_type_not_rejected :
    jsTruthy (objGet legitObjectInput "legitimations") = true ∧
    jsIsArray (objGet legitObjectInput "legitimations") = false ∧
    errorCheckStructural legitObjectInput = .ok () :=
  ⟨rfl, rfl, rfl⟩

/-- C8: the delegationId gate of errorCheck (part_002 line 51) is written
`typeof input.delegationId !== 'string' && !input.delegationId === null`;
the second conjunct compares a boolean against null and is always false, so
the gate never fires: an input with delegationId = 42 passes the structural
check, and no input whatsoever makes errorCheck raise the delegation-id type
error, although the documentation (part_002 line 22) promises one for a
wrongly-typed delegationId. -/
theorem delegation_id_gate_vacuous :
    errorCheckStructural delegNumberInput = .ok () ∧
    (∀ input : Js, errorCheckStructural input ≠ .error .DELEGATION_ID_TYPE) := by
  constructor
  · rfl
  · intro input hc
    have hfalse : (jsTypeof (objGet input "delegationId") != "string" &&
        (Js.bool (!(jsTruthy (objGet input "delegationId"))) == Js.null)) = false := by
      rw [jsbool_beq_null]
      simp
    unfold errorCheckStructural at hc
    cases h1 : (if !(jsTruthy (objGet input "claim"))
        then (Except.error SDKError.CLAIM_NOT_PROVIDED : Except SDKError Unit)
        else claimErrorCheck (objGet input "claim")) with
    | error e =>
      simp only [h1] at hc
      injection hc with he
      subst he
      split at h1
      · cases h1
      · exact claimErrorCheck_ne_deleg _ h1
    | ok u =>
      simp only [h1] at hc
      split at hc
      · simp at hc
      · split at hc
        · simp at hc
        · cases h2 : nonceMapCheck (objGet input "claimNonceMap") with
          | error e2 =>
            simp only [h2] at hc
            injection hc with he2
            subst he2
            exact nonceMapCheck_ne_deleg _ h2
          | ok bad =>
            simp only [h2] at hc
            split at hc
            · simp at hc
            · rw [hfalse] at hc
              simp at hc
              exact verifyDataThrows_ne_deleg input hc

/- ### The positional compression encoding (src/unnamed/part_002 lines
93-132, with the missing AttestedClaim / Attestation utilities modelled
from the spec and the shapes exercised by the part_001 test) -/

/-- Lexicographic order on character lists by code point, the string order
jsonabc sorts object keys with. -/
def charListLe : List Char → List Char → Bool
  | [], _ => true
  | _ :: _, [] => false
  | c1 :: t1, c2 :: t2 =>
    if c1.toNat < c2.toNat then true
    else if c2.toNat < c1.toNat then false
    else charListLe t1 t2

def strLe (a b : String) : Bool :=
  charListLe a.toList b.toList

/-- Insertion into a key-sorted object chain, by string order. -/
def objInsert (k : String) (v : Js) : Js → Js
  | .objCons k2 v2 t =>
    if strLe k k2 then .objCons k v (.objCons k2 v2 t) else .objCons k2 v2 (objInsert k v t)
  | x => .objCons k v x

/-- jsonabc.sortObj: objects are key-sorted recursively, arrays map over
their elements, scalars are untouched. -/
def jsSortObj : Js → Js
  | .arrCons h t => .arrCons (jsSortObj h) (jsSortObj t)
  | .objCons k v t => objInsert k (jsSortObj v) (jsSortObj t)
  | x => x

/-- ClaimUtils.compress (Claim.utils.ts lines 50-54): errorCheck, then the
positional array [sorted contents, cTypeHash, owner]. -/
def claimCompress (c : Js) : Except SDKError Js :=
  match claimErrorCheck c with
  | .error e => .error e
  | .ok _ =>
    .ok (.arrCons (jsSortObj (objGet c "contents"))
      (.arrCons (objGet c "cTypeHash") (.arrCons (objGet c "owner") .arrNil)))

/-- ClaimUtils.decompress (Claim.utils.ts lines 64-73): exactly a 3-element
array, else ERROR_DECOMPRESSION_ARRAY for the Claim component. -/
def claimDecompress (c : Js) : Except SDKError Js :=
  match c with
  | .arrCons contents (.arrCons cTypeHash (.arrCons owner .arrNil)) =>
    .ok (.objCons "contents" contents
      (.objCons "cTypeHash" cTypeHash (.objCons "owner" owner .objNil)))
  | _ => .error (.DECOMPRESSION_ARRAY "Claim")

/-- Modelled from the spec: AttestationUtils.compress is not under src/; the
positional attestation encoding [claimHash, cTypeHash, owner, revoked,
delegationId] is the one exercised by the part_001 test (lines 160-165). -/
def attCompress (a : Js) : Js :=
  .arrCons (objGet a "claimHash") (.arrCons (objGet a "cTypeHash")
    (.arrCons (objGet a "owner") (.arrCons (objGet a "revoked")
      (.arrCons (objGet a "delegationId") .arrNil))))

/-- Modelled from the spec: AttestationUtils.decompress, arity 5. -/
def attDecompress (a : Js) : Except SDKError Js :=
  match a with
  | .arrCons ch (.arrCons cth (.arrCons ow (.arrCons rv (.arrCons dg .arrNil)))) =>
    .ok (.objCons "claimHash" ch (.objCons "cTypeHash" cth (.objCons "owner" ow
      (.objCons "revoked" rv (.objCons "delegationId" dg .objNil)))))
  | _ => .error (.DECOMPRESSION_ARRAY "Attestation")

/-- Fuel measure: one unit per array or object node, at least one. -/
def Js.fuelOf : Js → Nat
  | .arrCons h t => 1 + h.fuelOf + t.fuelOf
  | .objCons _ v t => 1 + v.fuelOf + t.fuelOf
  | _ => 1

/-- RequestForAttestationUtils.compress (part_002 lines 93-106) in request
mode (true) together with compressLegitimation (lines 65-69) in list mode
(false); an AttestedClaim compresses to [compressed request, compressed
attestation] (modelled from the spec, the AttestedClaim utilities are not
under src/). Mapping over a non-array legitimations value raises the JS
TypeError. The fuel argument only drives the recursion; every call strictly
decreases it and Js.fuelOf bounds the recursion depth. -/
def compressF : Nat → Bool → Js → Except SDKError Js
  | 0, _, _ => .error .FUEL_EXHAUSTED
  | fuel + 1, true, r =>
    match errorCheckStructural r with
    | .error e => .error e
    | .ok _ =>
      match claimCompress (objGet r "claim") with
      | .error e => .error e
      | .ok claimC =>
        match compressF fuel false (objGet r "legitimations") with
        | .error e => .error e
        | .ok legsC =>
          .ok (.arrCons claimC (.arrCons (objGet r "claimNonceMap")
            (.arrCons (objGet r "claimerSignature") (.arrCons (objGet r "claimHashes")
              (.arrCons (objGet r "rootHash") (.arrCons legsC
                (.arrCons (objGet r "delegationId") .arrNil)))))))
  | _ + 1, false, .arrNil => .ok .arrNil
  | fuel + 1, false, .arrCons ac t =>
    match compressF fuel true (objGet ac "request") with
    | .error e => .error e
    | .ok reqC =>
      match compressF fuel false t with
      | .error e => .error e
      | .ok tC =>
        .ok (.arrCons (.arrCons reqC (.arrCons (attCompress (objGet ac "attestation")) .arrNil))
          tC)
  | _ + 1, false, _ => .error .TYPE_ERROR

/-- RequestForAttestationUtils.decompress (part_002 lines 117-132) in
request mode (true): anything but a 7-element array raises
ERROR_DECOMPRESSION_ARRAY for the Request for Attestation component before
any field is decoded; then the claim is decompressed, the legitimations are
decompressed recursively (list mode, false; an AttestedClaim must be a
2-element array, its request is decompressed with this same function), and
the pass-through fields are reassembled in source order. -/
def decompressF : Nat → Bool → Js → Except SDKError Js
  | 0, _, _ => .error .FUEL_EXHAUSTED
  | fuel + 1, true, c =>
    match c with
    | .arrCons c0 (.arrCons c1 (.arrCons c2 (.arrCons c3 (.arrCons c4 (.arrCons c5
        (.arrCons c6 .arrNil)))))) =>
      match claimDecompress c0 with
      | .error e => .error e
      | .ok claimD =>
        match decompressF fuel false c5 with
        | .error e => .error e
        | .ok legsD =>
          .ok (.objCons "claim" claimD (.objCons "claimNonceMap" c1
            (.objCons "claimerSignature" c2 (.objCons "claimHashes" c3
              (.objCons "rootHash" c4 (.objCons "legitimations" legsD
                (.objCons "delegationId" c6 .objNil)))))))
    | _ => .error (.DECOMPRESSION_ARRAY "Request for Attestation")
  | _ + 1, false, .arrNil => .ok .arrNil
  | fuel + 1, false, .arrCons ac t =>
    match ac with
    | .arrCons acReq (.arrCons acAtt .arrNil) =>
      match decompressF fuel true acReq with
      | .error e => .error e
      | .ok reqD =>
        match attDecompress acAtt with
        | .error e => .error e
        | .ok attD =>
          match decompressF fuel false t with
          | .error e => .error e
          | .ok tD =>
            .ok (.arrCons (.objCons "request" reqD (.objCons "attestation" attD .objNil)) tD)
    | _ => .error (.DECOMPRESSION_ARRAY "Attested Claim")
  | _ + 1, false, _ => .error .TYPE_ERROR

/-- RequestForAttestationUtils.compress with adequate fuel. -/
def reqCompress (r : Js) : Except SDKError Js :=
  compressF (Js.fuelOf r) true r

/-- RequestForAttestationUtils.decompress with adequate fuel. -/
def reqDecompress (c : Js) : Except SDKError Js :=
  decompressF (Js.fuelOf c) true c

/-- The 7-element-array shape that decompress accepts. -/
def isArr7 : Js → Bool
  | .arrCons _ (.arrCons _ (.arrCons _ (.arrCons _ (.arrCons _ (.arrCons _
      (.arrCons _ .arrNil)))))) => true
  | _ => false

theorem fuelOf_pos (js : Js) : 1 ≤ Js.fuelOf js := by
  cases js <;> simp [Js.fuelOf] <;> omega

/-- A 7-element compressed request whose legitimations entry contains an
attested-claim pair holding a non-array compressed request. -/
def nested7Input : Js :=
  .arrCons (.arrCons .objNil (.arrCons (.str hash66) (.arrCons (.str "addr") .arrNil)))
    (.arrCons .objNil (.arrCons (.str "sig") (.arrCons .arrNil
      (.arrCons (.str "root")
        (.arrCons (.arrCons (.arrCons (.num 5) (.arrCons .null .arrNil)) .arrNil)
          (.arrCons .null .arrNil))))))

/-- C6 (amended): decompress raises ERROR_DECOMPRESSION_ARRAY for the
Request for Attestation component on every argument that is not an array of
exactly 7 elements, before decoding any field. (The qualification that the
same error can also surface while decoding a nested compressed request in
the legitimations field is established by the counterexample theorem.) -/
theorem decompress_arity_gate (js : Js) (h : isArr7 js = false) :
    reqDecompress js = .error (.DECOMPRESSION_ARRAY "Request for Attestation") := by
  obtain ⟨f, hf⟩ : ∃ f, Js.fuelOf js = f + 1 :=
    ⟨Js.fuelOf js - 1, by have := fuelOf_pos js; omega⟩
  unfold reqDecompress
  rw [hf]
  unfold decompressF
  split <;> simp_all [isArr7]

/-- Witness for C6's amended arity gate at a non-array input. -/
theorem decompress_arity_gate_witness :
    isArr7 (Js.str "x") = false ∧
    reqDecompress (Js.str "x") = .error (.DECOMPRESSION_ARRAY "Request for Attestation") :=
  ⟨rfl, decompress_arity_gate (Js.str "x") rfl⟩

/-- Counterexample to C6 as stated: an argument that is an array of exactly
7 elements on which decompress still throws ERROR_DECOMPRESSION_ARRAY for
the Request for Attestation component, because the nested compressed request
inside the legitimations field fails its own arity check; hence the error is
not raised exactly on non-7-arrays. -/
theorem decompress_arity_error_on_seven_array :
    isArr7 nested7Input = true ∧
    reqDecompress nested7Input = .error (.DECOMPRESSION_ARRAY "Request for Attestation") :=
  ⟨rfl, rfl⟩

/- ### Round-trip of the positional encoding -/

/-- The canonical key layout of a request object: exactly the seven fields,
in the order decompress reassembles them. -/
def reqShape (r : Js) : Js :=
  .objCons "claim" (objGet r "claim") (.objCons "claimNonceMap" (objGet r "claimNonceMap")
    (.objCons "claimerSignature" (objGet r "claimerSignature")
      (.objCons "claimHashes" (objGet r "claimHashes")
        (.objCons "rootHash" (objGet r "rootHash")
          (.objCons "legitimations" (objGet r "legitimations")
            (.objCons "delegationId" (objGet r "delegationId") .objNil))))))

/-- The canonical key layout of a claim object. -/
def claimShape (c : Js) : Js :=
  .objCons "contents" (objGet c "contents") (.objCons "cTypeHash" (objGet c "cTypeHash")
    (.objCons "owner" (objGet c "owner") .objNil))

/-- The canonical key layout of an attestation object. -/
def attShape (a : Js) : Js :=
  .objCons "claimHash" (objGet a "claimHash") (.objCons "cTypeHash" (objGet a "cTypeHash")
    (.objCons "owner" (objGet a "owner") (.objCons "revoked" (objGet a "revoked")
      (.objCons "delegationId" (objGet a "delegationId") .objNil))))

/-- The canonical key layout of an attested-claim pair. -/
def acShape (ac : Js) : Js :=
  .objCons "request" (objGet ac "request") (.objCons "attestation" (objGet ac "attestation")
    .objNil)

def errOkB (r : Js) : Bool :=
  match errorCheckStructural r with
  | .ok _ => true
  | .error _ => false

/-- Well-formedness of a request (mode true) or of a legitimations array
(mode false), with the same fuel discipline as compressF: the canonical
seven-field layout, a canonically laid-out and key-sorted claim, a passing
errorCheck — including the verifyData commitment gate of part_002 line 54 —
and recursively well-formed legitimations whose attested claims pair a
well-formed request with a canonically laid-out attestation. -/
def wfF : Nat → Bool → Js → Bool
  | 0, _, _ => false
  | fuel + 1, true, r =>
    (r == reqShape r) && ((objGet r "claim") == claimShape (objGet r "claim")) &&
      (jsSortObj (objGet (objGet r "claim") "contents") ==
        objGet (objGet r "claim") "contents") &&
      errOkB r && wfF fuel false (objGet r "legitimations")
  | _ + 1, false, .arrNil => true
  | fuel + 1, false, .arrCons ac t =>
    (ac == acShape ac) && ((objGet ac "attestation") == attShape (objGet ac "attestation")) &&
      wfF fuel true (objGet ac "request") && wfF fuel false t
  | _ + 1, false, _ => false

/-- Well-formed request at adequate fuel. -/
def wfReq (r : Js) : Bool :=
  wfF (Js.fuelOf r) true r

theorem fuelOf_objGet_le (a : Js) (k : String) : Js.fuelOf (objGet a k) ≤ Js.fuelOf a := by
  induction a with
  | objCons k2 v t ih =>
    unfold objGet
    by_cases hk : k2 = k
    · rw [if_pos hk]
      simp [Js.fuelOf]
      omega
    · rw [if_neg hk]
      have : Js.fuelOf (Js.objCons k2 v t) = 1 + Js.fuelOf v + Js.fuelOf t := rfl
      omega
  | arrCons h t ih1 ih2 => simp [objGet, Js.fuelOf]; omega
  | _ => simp [objGet, Js.fuelOf]

theorem errorCheckStructural_claim_ok (r : Js) (h : errorCheckStructural r = .ok ()) :
    claimErrorCheck (objGet r "claim") = .ok () := by
  unfold errorCheckStructural at h
  cases h1 : (if !(jsTruthy (objGet r "claim"))
      then (Except.error SDKError.CLAIM_NOT_PROVIDED : Except SDKError Unit)
      else claimErrorCheck (objGet r "claim")) with
  | error e =>
    rw [h1] at h
    cases h
  | ok u =>
    split at h1
    · cases h1
    · cases u
      exact h1

theorem att_roundtrip (a : Js) (h : (a == attShape a) = true) :
    attDecompress (attCompress a) = .ok a := by
  have he : a = attShape a := eq_of_beq h
  have hr : attDecompress (attCompress a) = .ok (attShape a) := rfl
  rw [hr, ← he]

theorem roundtrip_aux (fuel : Nat) :
    ∀ mode js, Js.fuelOf js ≤ fuel → wfF fuel mode js = true →
      ∃ c, compressF fuel mode js = .ok c ∧
        ∀ fuel2, Js.fuelOf c ≤ fuel2 → decompressF fuel2 mode c = .ok js := by
  induction fuel with
  | zero =>
    intro mode js hf _
    have := fuelOf_pos js
    omega
  | succ fuel ih =>
    intro mode js hf hwf
    cases mode with
    | false =>
      cases js with
      | arrNil =>
        refine ⟨.arrNil, rfl, ?_⟩
        intro fuel2 hf2
        obtain ⟨f2, rfl⟩ : ∃ f2, fuel2 = f2 + 1 :=
          ⟨fuel2 - 1, by have := fuelOf_pos Js.arrNil; omega⟩
        rfl
      | arrCons ac t =>
        unfold wfF at hwf
        simp only [Bool.and_eq_true] at hwf
        obtain ⟨⟨⟨hshape, hatt⟩, hrq⟩, ht⟩ := hwf
        have hshape2 : ac = .objCons "request" (objGet ac "request")
            (.objCons "attestation" (objGet ac "attestation") .objNil) := eq_of_beq hshape
        have hsize : Js.fuelOf (Js.arrCons ac t) = 1 + Js.fuelOf ac + Js.fuelOf t := rfl
        have hposac := fuelOf_pos ac
        have hpost := fuelOf_pos t
        have hfreq : Js.fuelOf (objGet ac "request") ≤ fuel :=
          le_trans (fuelOf_objGet_le ac "request") (by omega)
        have hft : Js.fuelOf t ≤ fuel := by omega
        obtain ⟨rqC, hrqC, hrqD⟩ := ih true (objGet ac "request") hfreq hrq
        obtain ⟨tC, htC, htD⟩ := ih false t hft ht
        refine ⟨.arrCons (.arrCons rqC (.arrCons (attCompress (objGet ac "attestation"))
          .arrNil)) tC, ?_, ?_⟩
        · simp only [compressF, hrqC, htC]
        · intro fuel2 hf2
          obtain ⟨f2, rfl⟩ : ∃ f2, fuel2 = f2 + 1 :=
            ⟨fuel2 - 1, by
              have := fuelOf_pos (Js.arrCons (.arrCons rqC
                (.arrCons (attCompress (objGet ac "attestation")) .arrNil)) tC)
              omega⟩
          have harith : Js.fuelOf (Js.arrCons (.arrCons rqC
              (.arrCons (attCompress (objGet ac "attestation")) .arrNil)) tC) =
              1 + (1 + Js.fuelOf rqC +
                (1 + Js.fuelOf (attCompress (objGet ac "attestation")) + 1)) +
                Js.fuelOf tC := rfl
          rw [harith] at hf2
          have hfrqC : Js.fuelOf rqC ≤ f2 := by omega
          have hftC : Js.fuelOf tC ≤ f2 := by omega
          simp only [decompressF, hrqD f2 hfrqC, att_roundtrip _ hatt, htD f2 hftC]
          rw [← hshape2]
      | null => simp [wfF] at hwf
      | undefined => simp [wfF] at hwf
      | bool b => simp [wfF] at hwf
      | num n => simp [wfF] at hwf
      | str s => simp [wfF] at hwf
      | objNil => simp [wfF] at hwf
      | objCons k v t => simp [wfF] at hwf
    | true =>
      unfold wfF at hwf
      simp only [Bool.and_eq_true] at hwf
      obtain ⟨⟨⟨⟨hshape, hcshape⟩, hsort⟩, herrb⟩, hlegs⟩ := hwf
      have hshape2 : js = .objCons "claim" (objGet js "claim")
          (.objCons "claimNonceMap" (objGet js "claimNonceMap")
            (.objCons "claimerSignature" (objGet js "claimerSignature")
              (.objCons "claimHashes" (objGet js "claimHashes")
                (.objCons "rootHash" (objGet js "rootHash")
                  (.objCons "legitimations" (objGet js "legitimations")
                    (.objCons "delegationId" (objGet js "delegationId") .objNil)))))) :=
        eq_of_beq hshape
      have hcshape2 : objGet js "claim" = .objCons "contents"
          (objGet (objGet js "claim") "contents")
          (.objCons "cTypeHash" (objGet (objGet js "claim") "cTypeHash")
            (.objCons "owner" (objGet (objGet js "claim") "owner") .objNil)) :=
        eq_of_beq hcshape
      have hsort2 : jsSortObj (objGet (objGet js "claim") "contents") =
          objGet (objGet js "claim") "contents" := eq_of_beq hsort
      have herr : errorCheckStructural js = .ok () := by
        unfold errOkB at herrb
        cases he : errorCheckStructural js with
        | ok u => cases u; rfl
        | error e => rw [he] at herrb; cases herrb
      have hclaimok : claimErrorCheck (objGet js "claim") = .ok () :=
        errorCheckStructural_claim_ok js herr
      have hflegs : Js.fuelOf (objGet js "legitimations") ≤ fuel := by
        have h1 : Js.fuelOf (objGet js "legitimations") < Js.fuelOf js := by
          conv_rhs => rw [hshape2]
          simp only [Js.fuelOf]
          omega
        omega
      obtain ⟨legsC, hlC, hlD⟩ := ih false (objGet js "legitimations") hflegs hlegs
      have hcc : claimCompress (objGet js "claim") =
          .ok (.arrCons (objGet (objGet js "claim") "contents")
            (.arrCons (objGet (objGet js "claim") "cTypeHash")
              (.arrCons (objGet (objGet js "claim") "owner") .arrNil))) := by
        unfold claimCompress
        rw [hclaimok, hsort2]
      refine ⟨.arrCons (.arrCons (objGet (objGet js "claim") "contents")
          (.arrCons (objGet (objGet js "claim") "cTypeHash")
            (.arrCons (objGet (objGet js "claim") "owner") .arrNil)))
        (.arrCons (objGet js "claimNonceMap")
          (.arrCons (objGet js "claimerSignature")
            (.arrCons (objGet js "claimHashes")
              (.arrCons (objGet js "rootHash")
                (.arrCons legsC
                  (.arrCons (objGet js "delegationId") .arrNil)))))), ?_, ?_⟩
      · simp only [compressF, herr, hcc, hlC]
      · intro fuel2 hf2
        obtain ⟨f2, rfl⟩ : ∃ f2, fuel2 = f2 + 1 := ⟨fuel2 - 1, by
          have : 1 ≤ fuel2 := le_trans (fuelOf_pos _) hf2
          omega⟩
        have harith : Js.fuelOf (Js.arrCons (.arrCons (objGet (objGet js "claim") "contents")
            (.arrCons (objGet (objGet js "claim") "cTypeHash")
              (.arrCons (objGet (objGet js "claim") "owner") .arrNil)))
          (.arrCons (objGet js "claimNonceMap")
            (.arrCons (objGet js "claimerSignature")
              (.arrCons (objGet js "claimHashes")
                (.arrCons (objGet js "rootHash")
                  (.arrCons legsC
                    (.arrCons (objGet js "delegationId") .arrNil))))))) =
            1 + (1 + Js.fuelOf (objGet (objGet js "claim") "contents") +
              (1 + Js.fuelOf (objGet (objGet js "claim") "cTypeHash") +
                (1 + Js.fuelOf (objGet (objGet js "claim") "owner") + 1))) +
            (1 + Js.fuelOf (objGet js "claimNonceMap") +
              (1 + Js.fuelOf (objGet js "claimerSignature") +
                (1 + Js.fuelOf (objGet js "claimHashes") +
                  (1 + Js.fuelOf (objGet js "rootHash") +
                    (1 + Js.fuelOf legsC +
                      (1 + Js.fuelOf (objGet js "delegationId") + 1)))))) := rfl
        rw [harith] at hf2
        have hfl : Js.fuelOf legsC ≤ f2 := by omega
        simp only [decompressF, claimDecompress, hlD f2 hfl]
        rw [← hcshape2, ← hshape2]

/-- C3: for every well-formed request — the canonical seven-field object
with a present, canonically laid-out and key-sorted claim, array
legitimations of well-formed attested claims, a well-formed claimNonceMap,
a string-or-null delegationId, and a full errorCheck pass including the
verifyData commitment gate that compress runs first, as checked by wfReq,
which in particular holds for every request the hash-tree builder
produces — decompressing the compression yields the request back
unchanged. -/
theorem compress_decompress_roundtrip (r : Js) (h : wfReq r = true) :
    ∃ c, reqCompress r = .ok c ∧ reqDecompress c = .ok r := by
  obtain ⟨c, hc, hd⟩ := roundtrip_aux (Js.fuelOf r) true r le_rfl h
  exact ⟨c, hc, hd (Js.fuelOf c) le_rfl⟩

/-- A well-formed attestation object in canonical layout. -/
def sampleAttJs : Js :=
  .objCons "claimHash" (.str hash66) (.objCons "cTypeHash" (.str hash66)
    (.objCons "owner" (.str "addr") (.objCons "revoked" (.bool false)
      (.objCons "delegationId" .null .objNil))))

/-- The serialized statements a claim commits to: the owner pseudo-property
when present, then one statement per contents property (spec 4.2). -/
def statementsOf (claim : Js) : List String :=
  (if jsTruthy (objGet claim "owner")
   then [statementOfOwner (objGet claim "owner")] else []) ++
    (jsEntries (objGet claim "contents")).map (fun kv => statementOfProp kv.1 kv.2)

def nonceMapOf (nonces : String → String) : List String → Js
  | [] => .objNil
  | st :: rest => .objCons (hashStr st) (.str (nonces st)) (nonceMapOf nonces rest)

def jsStrArr : List String → Js
  | [] => .arrNil
  | s :: rest => .arrCons (.str s) (jsStrArr rest)

def concatStrings : List String → String
  | [] => ""
  | s :: rest => s ++ "," ++ concatStrings rest

/-- The root hashes of the attested claims in a legitimations array. -/
def legRootsOf : Js → List String
  | .arrCons ac t =>
    (match objGet (objGet ac "request") "rootHash" with
     | .str s => s
     | _ => "") :: legRootsOf t
  | _ => []

/-- Modelled from the spec (4.2): the hash-tree builder over the dynamic
request layout. Each statement gets a nonce; claimNonceMap maps the digest
of each statement to its nonce; claimHashes collects the salted commitments
H(nonce || statement); the root hash digests the claim hashes together with
the legitimation root hashes and the delegation id; the claimer signature
over the root is opaque at this layer (errorCheck discards the boolean
signature verdict, spec 4.4 step 4). -/
def buildRequestJs (claim : Js) (nonces : String → String) (legs did : Js) : Js :=
  .objCons "claim" claim
    (.objCons "claimNonceMap" (nonceMapOf nonces (statementsOf claim))
      (.objCons "claimerSignature" (.str "sig")
        (.objCons "claimHashes"
          (jsStrArr ((statementsOf claim).map (fun st => hashStr (nonces st ++ st))))
          (.objCons "rootHash"
            (.str (hashStr (concatStrings
              ((statementsOf claim).map (fun st => hashStr (nonces st ++ st))) ++
              concatStrings (legRootsOf legs) ++ serializeJs did)))
            (.objCons "legitimations" legs (.objCons "delegationId" did .objNil))))))

/-- A claim over contents {a: a, b: b} with an owner, in canonical layout. -/
def rtClaimJs : Js :=
  .objCons "contents" (.objCons "a" (.str "a") (.objCons "b" (.str "b") .objNil))
    (.objCons "cTypeHash" (.str hash66) (.objCons "owner" (.str "addr") .objNil))

/-- A built, hash-consistent request with no legitimations. -/
def innerReqJs : Js :=
  buildRequestJs emptyClaimJs (fun _ => "n1") .arrNil .null

/-- A built, hash-consistent request carrying one legitimation whose nested
request is itself built and hash-consistent. -/
def sampleReqJs : Js :=
  buildRequestJs rtClaimJs (fun _ => "n1")
    (.arrCons (.objCons "request" innerReqJs
      (.objCons "attestation" sampleAttJs .objNil)) .arrNil) .null

/-- Witness for C3 at a concrete built request with one nested legitimation. -/
theorem compress_decompress_roundtrip_witness :
    wfReq sampleReqJs = true ∧
    (∃ c, reqCompress sampleReqJs = .ok c ∧ reqDecompress c = .ok sampleReqJs) :=
  ⟨rfl, compress_decompress_roundtrip sampleReqJs rfl⟩

/-- Witness for C4 at a concrete ledger and attestation. -/
theorem attestation_verify_valid_iff_witness :
    attestationVerify (fun _ => some ⟨"h", "c", "alice", false, none⟩) "h" "alice" = true ∧
    attestationVerify (fun _ => none) "h" "alice" = false :=
  ⟨(attestation_verify_valid_iff (fun _ => some ⟨"h", "c", "alice", false, none⟩)
      "h" "alice").1.mpr ⟨⟨"h", "c", "alice", false, none⟩, rfl, rfl, rfl⟩,
   (attestation_verify_valid_iff (fun _ => none) "h" "alice").2 rfl⟩

/-- Witness for C5 at the bitset 0b11. -/
theorem decode_permissions_spec_witness :
    decodePermissions 3 = [Permission.ATTEST, Permission.DELEGATE] ∧
    Permission.ATTEST ∈ decodePermissions 3 :=
  ⟨(decode_permissions_spec 3).2.2.2.2.2,
   ((decode_permissions_spec 3).2.1 Permission.ATTEST).mpr (by decide)⟩

/-- Witness for C8: the structural check passes an input whose delegationId
is a number, and the delegation-id error is not raised at a concrete input. -/
theorem delegation_id_gate_vacuous_witness :
    errorCheckStructural delegNumberInput = .ok () ∧
    errorCheckStructural (Js.num 7) ≠ .error .DELEGATION_ID_TYPE :=
  ⟨delegation_id_gate_vacuous.1, delegation_id_gate_vacuous.2 (Js.num 7)⟩
